import Mathlib

/-!
Verification of the openat directory-handle library: a shallow embedding of
the flag computations, the recursive-removal engine, the atomic rename loop,
the directory iterator and its shared stream handle, translated from the
Rust sources (src/dir.rs, src/list.rs, src/builder.rs).
-/

namespace Openat

/-- Coarse file-type tag carried by directory entries (lib.rs / filetype). -/
inductive SimpleType where
  | file
  | dir
  | symlink
  | other
  | unknown
  deriving DecidableEq, Repr

/-- Model of std::io::Error as produced by this library: a raw OS error code,
an invalid-input error with its message, or an ErrorKind::Other error. -/
inductive IoErr where
  | osError (code : Int)
  | invalidInput (msg : String)
  | otherErr (msg : String)
  deriving DecidableEq, Repr

def EBADF : Int := 9

def ENOTDIR : Int := 20

def EISDIR : Int := 21

/-- One destructive OS call performed by Dir::remove_recursive, identified by
the (handle-relative) path it acts on. -/
inductive FsOp where
  | unlinkFile (path : List String)
  | unlinkDir (path : List String)
  deriving DecidableEq, Repr

/-- A filesystem subtree as observed through list_dir: a directory node keeps,
for each child, the entry name, the d_type hint the OS listing reports for it
(None when the filesystem leaves d_type unset), and the child subtree. A
non-directory node is `file`. -/
inductive FsNode where
  | file : FsNode
  | dir (entries : List (String × Option SimpleType × FsNode)) : FsNode

def isDirNode : FsNode → Bool
  | .file => false
  | .dir _ => true

mutual

/-- Dir::remove_recursive (dir.rs 474-488) on the subtree that `path` names:
list the target, handle each entry, then remove the directory itself. Returns
the destructive OS calls performed in order, and the error that aborted the
walk, if any. Listing a non-directory fails with ENOTDIR (openat with
O_DIRECTORY); unlinkat without AT_REMOVEDIR on a directory fails with EISDIR. -/
def remove_recursive (path : List String) : FsNode → List FsOp × Option IoErr
  | .file => ([], some (IoErr.osError ENOTDIR))
  | .dir entries =>
    match remove_recursive_entries path entries with
    | (ops, some e) => (ops, some e)
    | (ops, none) => (ops ++ [FsOp.unlinkDir path], none)

/-- The try_for_each body of Dir::remove_recursive: an entry whose d_type hint
is Some(Dir) is recursed into; every other entry is removed with remove_file;
the first error aborts the fold. -/
def remove_recursive_entries (path : List String) :
    List (String × Option SimpleType × FsNode) → List FsOp × Option IoErr
  | [] => ([], none)
  | (name, hint, child) :: rest =>
    if hint = some SimpleType.dir then
      match remove_recursive (path ++ [name]) child with
      | (ops, some e) => (ops, some e)
      | (ops, none) =>
        let r := remove_recursive_entries path rest
        (ops ++ r.1, r.2)
    else
      match child with
      | .dir _ => ([], some (IoErr.osError EISDIR))
      | .file =>
        let r := remove_recursive_entries path rest
        (FsOp.unlinkFile (path ++ [name]) :: r.1, r.2)

end

mutual

/-- Modelled from the spec: the removal walk as the specification sentence for
remove_recursive words it, where an entry is classified as a directory "via a
quick type hint, falling back to a status query only when the hint is absent".
Identical to remove_recursive except that an absent hint is resolved by the
entry's actual (stat-observed) file type. Used only to compare the code's
behavior against the claimed one. -/
def remove_recursive_spec (path : List String) : FsNode → List FsOp × Option IoErr
  | .file => ([], some (IoErr.osError ENOTDIR))
  | .dir entries =>
    match remove_recursive_spec_entries path entries with
    | (ops, some e) => (ops, some e)
    | (ops, none) => (ops ++ [FsOp.unlinkDir path], none)

/-- Modelled from the spec: entry handling with the claimed stat fallback for
absent hints. -/
def remove_recursive_spec_entries (path : List String) :
    List (String × Option SimpleType × FsNode) → List FsOp × Option IoErr
  | [] => ([], none)
  | (name, hint, child) :: rest =>
    if (match hint with
        | some t => decide (t = SimpleType.dir)
        | none => isDirNode child) then
      match remove_recursive_spec (path ++ [name]) child with
      | (ops, some e) => (ops, some e)
      | (ops, none) =>
        let r := remove_recursive_spec_entries path rest
        (ops ++ r.1, r.2)
    else
      match child with
      | .dir _ => ([], some (IoErr.osError EISDIR))
      | .file =>
        let r := remove_recursive_spec_entries path rest
        (FsOp.unlinkFile (path ++ [name]) :: r.1, r.2)

end

mutual

/-- The d_type hints in a subtree agree with the actual node types: an entry
carries hint Some(Dir) exactly when its node is a directory. -/
def hintsGood : FsNode → Bool
  | .file => true
  | .dir entries => hintsGoodEntries entries

def hintsGoodEntries : List (String × Option SimpleType × FsNode) → Bool
  | [] => true
  | (_, hint, child) :: rest =>
    (decide ((hint = some SimpleType.dir) ↔ isDirNode child = true))
      && hintsGood child && hintsGoodEntries rest

end

/-- The path an FsOp acts on. -/
def FsOp.opPath : FsOp → List String
  | .unlinkFile p => p
  | .unlinkDir p => p

mutual

/-- Size measure on subtrees, for strong induction. -/
def nodeSize : FsNode → Nat
  | .file => 1
  | .dir entries => 1 + entsSize entries

/-- Size measure on entry lists, for strong induction. -/
def entsSize : List (String × Option SimpleType × FsNode) → Nat
  | [] => 0
  | (_, _, child) :: rest => 1 + nodeSize child + entsSize rest

end

/-! ### Open flags (Linux libc values, as configured by the crate features) -/

def O_RDONLY : Nat := 0

def O_WRONLY : Nat := 1

def O_RDWR : Nat := 2

def O_CREAT : Nat := 0o100

def O_EXCL : Nat := 0o200

def O_TRUNC : Nat := 0o1000

def O_APPEND : Nat := 0o2000

def O_DIRECTORY : Nat := 0o200000

def O_NOFOLLOW : Nat := 0o400000

def O_CLOEXEC : Nat := 0o2000000

def O_PATH : Nat := 0o10000000

/-- dir.rs: O_SEARCH is 0 where the o_search feature is absent (Linux). -/
def O_SEARCH : Nat := 0

/-- Bitwise complement of a C int flag set, restricted to 32 bits, as used by
the builders' `flags & !x`. -/
def bitNot32 (x : Nat) : Nat := 0xFFFFFFFF ^^^ x

/-- builder.rs DirFlags: flag accumulator for Dir::flags().open(). -/
structure DirFlags where
  flags : Nat
  deriving DecidableEq, Repr

def DirFlags.new (flags : Nat) : DirFlags := ⟨flags⟩

def DirFlags.with' (b : DirFlags) (flags : Nat) : DirFlags := ⟨b.flags ||| flags⟩

def DirFlags.without (b : DirFlags) (flags : Nat) : DirFlags :=
  ⟨b.flags &&& bitNot32 flags⟩

def DirFlags.get_flags (b : DirFlags) : Nat := b.flags

/-- Flags DirFlags::open passes to the OS open call: Dir::_open ORs
O_DIRECTORY onto the accumulated flags (dir.rs 80-83, builder.rs 48-50). -/
def DirFlags.openFlags (b : DirFlags) : Nat := O_DIRECTORY ||| b.flags

/-- Dir::flags(): builder initialised with O_CLOEXEC (dir.rs 62-65). -/
def Dir.flagsBuilder : DirFlags := DirFlags.new O_CLOEXEC

/-- Flags Dir::open passes to the OS open call:
_open(path, O_PATH | O_CLOEXEC) with O_DIRECTORY ORed in (dir.rs 76-83). -/
def Dir.openFlags : Nat := O_DIRECTORY ||| (O_PATH ||| O_CLOEXEC)

/-- Modelled from the spec: the flag set the specification sentence for
`open(path)` describes — "directory" + close-on-exec, plus the restricted
anchor flag only if the caller explicitly asked for an anchor-only handle. -/
def open_flags_spec (restrictedRequested : Bool) : Nat :=
  O_DIRECTORY ||| O_CLOEXEC ||| (if restrictedRequested then O_PATH else 0)

/-- builder.rs DirMethodFlags: per-call flag accumulator. The back reference
to the Dir object only routes the final syscall and is elided here. -/
structure DirMethodFlags where
  flags : Nat
  deriving DecidableEq, Repr

/-- Dir::with (dir.rs 126-128): per-call builder defaulting to
O_CLOEXEC | O_NOFOLLOW plus the given flags. -/
def Dir.with' (flags : Nat) : DirMethodFlags :=
  ⟨O_CLOEXEC ||| O_NOFOLLOW ||| flags⟩

/-- Dir::without (dir.rs 135-137): per-call builder defaulting to
O_CLOEXEC | O_NOFOLLOW with the given flags removed. -/
def Dir.without (flags : Nat) : DirMethodFlags :=
  ⟨(O_CLOEXEC ||| O_NOFOLLOW) &&& bitNot32 flags⟩

def DirMethodFlags.with' (b : DirMethodFlags) (flags : Nat) : DirMethodFlags :=
  ⟨b.flags ||| flags⟩

def DirMethodFlags.without (b : DirMethodFlags) (flags : Nat) : DirMethodFlags :=
  ⟨b.flags &&& bitNot32 flags⟩

/-- Dir::_open_file (dir.rs 377-393): the flags actually given to openat are
the caller's flags with O_CLOEXEC and O_NOFOLLOW unconditionally ORed on. -/
def open_file_flags (flags : Nat) : Nat := flags ||| O_CLOEXEC ||| O_NOFOLLOW

/-- openat flags of DirMethodFlags::open_file (builder.rs 94-97). -/
def DirMethodFlags.open_file (b : DirMethodFlags) : Nat :=
  open_file_flags (b.flags ||| O_RDONLY)

/-- openat flags of DirMethodFlags::write_file (builder.rs 101-107). -/
def DirMethodFlags.write_file (b : DirMethodFlags) : Nat :=
  open_file_flags (b.flags ||| O_CREAT ||| O_WRONLY ||| O_TRUNC)

/-- openat flags of DirMethodFlags::append_file (builder.rs 111-117). -/
def DirMethodFlags.append_file (b : DirMethodFlags) : Nat :=
  open_file_flags (b.flags ||| O_CREAT ||| O_WRONLY ||| O_APPEND)

/-- openat flags of DirMethodFlags::new_file (builder.rs 132-138). -/
def DirMethodFlags.new_file (b : DirMethodFlags) : Nat :=
  open_file_flags (b.flags ||| O_CREAT ||| O_EXCL ||| O_WRONLY)

/-- openat flags of DirMethodFlags::sub_dir (builder.rs 88-90, dir.rs 160-164):
_sub_dir only ORs O_DIRECTORY onto the builder flags. -/
def DirMethodFlags.sub_dir (b : DirMethodFlags) : Nat := b.flags ||| O_DIRECTORY

/-- openat flags of Dir::open_file (dir.rs 192-195). -/
def Dir.open_file_call : Nat := open_file_flags O_RDONLY

/-- openat flags of Dir::write_file (dir.rs 205-211). -/
def Dir.write_file_call : Nat := open_file_flags (O_CREAT ||| O_WRONLY ||| O_TRUNC)

/-- openat flags of Dir::append_file (dir.rs 219-225). -/
def Dir.append_file_call : Nat := open_file_flags (O_CREAT ||| O_WRONLY ||| O_APPEND)

/-- openat flags of Dir::new_file (dir.rs 355-361). -/
def Dir.new_file_call : Nat := open_file_flags (O_CREAT ||| O_EXCL ||| O_WRONLY)

/-- openat flags of Dir::update_file (dir.rs 369-375). -/
def Dir.update_file_call : Nat := open_file_flags (O_CREAT ||| O_RDWR)

/-! ### Paths and the atomic-remove rename loop (dir.rs 496-518) -/

/-- One parsed component of a Rust Path: the root separator, a `..`
component, or a normal file name (as characters). -/
inductive PComp where
  | rootc
  | parentc
  | normal (name : List Char)
  deriving DecidableEq, Repr

/-- Rust Path::file_name on a parsed component list: the final component if it
is a normal name; None when the path is empty or ends in the root or in
`..`. -/
def fileNameP : List PComp → Option (List Char) :=
  fun p =>
    match p.getLast? with
    | some (PComp.normal n) => some n
    | _ => none

/-- The part of a name before its final dot, when the name contains a dot at
all; used to express Rust's file_stem/set_extension on the tail of a name. -/
def beforeLastDot : List Char → Option (List Char)
  | [] => none
  | c :: rest =>
    match beforeLastDot rest with
    | some s => some (c :: s)
    | none => if c = '.' then some [] else none

/-- Rust Path::file_stem of a non-empty file name: everything before the final
dot, except that a dot in the leading position alone does not start an
extension (".bashrc" is its own stem). -/
def rustFileStem (cs : List Char) : List Char :=
  match cs with
  | [] => []
  | c :: rest =>
    match beforeLastDot rest with
    | some s => c :: s
    | none => c :: rest

/-- The file name produced by Rust PathBuf::set_extension with a non-empty
extension: the stem followed by a dot and the new extension. -/
def setExtChars (name ext : List Char) : List Char :=
  rustFileStem name ++ '.' :: ext

/-- Rust PathBuf::set_extension on a parsed path: replaces the extension of
the final normal component; a no-op (returning false) when the path has no
file name. -/
def set_extension (p : List PComp) (ext : List Char) : List PComp :=
  match fileNameP p with
  | none => p
  | some n => p.dropLast ++ [PComp.normal (setExtChars n ext)]

/-- Decimal digit character, as produced by Rust's u16 Display. -/
def toDigitChar (d : Nat) : Char := Char.ofNat (48 + d)

/-- Fuel-driven decimal digit expansion (fuel `n + 1` always suffices). -/
def natDigitsAux : Nat → Nat → List Char
  | 0, _ => []
  | fuel + 1, n =>
    if n < 10 then [toDigitChar n]
    else natDigitsAux fuel (n / 10) ++ [toDigitChar (n % 10)]

/-- The decimal digits of `n`, as Rust's `i.to_string()` renders a counter. -/
def natDigits (n : Nat) : List Char := natDigitsAux (n + 1) n

/-- Numeric value of a digit string (left inverse of natDigits). -/
def digitsVal : List Char → Nat
  | [] => 0
  | c :: rest => (c.toNat - 48) * 10 ^ rest.length + digitsVal rest

/-- The candidate rename loop of Dir::remove_recursive_atomic (dir.rs
511-516): with `cnt` iterations left and counter value `i`, set the current
to_delete path's extension to the counter's digits, attempt the rename
(outcome given by the oracle `renameOk`, its error discarded), and return the
first name that renames successfully; when the iterations are exhausted,
return the "Could not rename for remove" error. The source runs
`for i in 0u16..u16::MAX`, i.e. 65535 iterations starting at 0. -/
def renameLoop (renameOk : List PComp → Bool) :
    Nat → Nat → List PComp → Except IoErr (List PComp)
  | 0, _, _ => Except.error (IoErr.otherErr "Could not rename for remove")
  | cnt + 1, i, cur =>
    let cand := set_extension cur (natDigits i)
    if renameOk cand then Except.ok cand
    else renameLoop renameOk cnt (i + 1) cand

/-- Outcome of a call that may also panic (an `unwrap` of None). -/
inductive RunOutcome (α : Type) where
  | ok (a : α)
  | err (e : IoErr)
  | unwrapFailed
  deriving DecidableEq, Repr

/-- The to_delete path Dir::remove_recursive_atomic builds (dir.rs 502-509):
the full path when tmp_dir is empty (rename in place), else tmp_dir extended
by the path's file name — whose absence makes the `.unwrap()` panic (None). -/
def toDeleteOf (path tmpDir : List PComp) : Option (List PComp) :=
  if tmpDir.isEmpty then some path
  else
    match fileNameP path with
    | none => none
    | some n => some (tmpDir ++ [PComp.normal n])

/-- Dir::remove_recursive_atomic (dir.rs 496-518): build the to_delete name,
run the rename loop, and on the first successful rename hand the new location
to the recursive removal `doRemove`; rename failures are never surfaced
individually. -/
def remove_recursive_atomic (renameOk : List PComp → Bool)
    (doRemove : List PComp → RunOutcome Unit)
    (path tmpDir : List PComp) : RunOutcome Unit :=
  match toDeleteOf path tmpDir with
  | none => RunOutcome.unwrapFailed
  | some td =>
    match renameLoop renameOk 65535 0 td with
    | Except.ok newLoc => doRemove newLoc
    | Except.error e => RunOutcome.err e

/-! ### Directory iterator and the shared stream handle (src/list.rs) -/

/-- Native calls an iterator operation may issue on the underlying stream. -/
inductive NativeCall where
  | closedirC (p : Nat)
  | seekdirC (p : Nat) (pos : Int)
  | rewinddirC (p : Nat)
  deriving DecidableEq, Repr

/-- DirHandle state (list.rs 197-198): the AtomicPtr to the native DIR
stream, null (none) once closed. -/
def HandleState := Option Nat

/-- DirHandle::raw (list.rs 205-212): the pointer when non-null, else the
EBADF "bad descriptor" error. -/
def DirHandle.raw : Option Nat → Except IoErr Nat
  | some p => Except.ok p
  | none => Except.error (IoErr.osError EBADF)

/-- DirHandle::close (list.rs 214-221): swap the pointer to null, and call
closedir only when the swapped-out pointer was non-null. Returns the new
state and the native calls issued. -/
def DirHandle.close : Option Nat → Option Nat × List NativeCall
  | some p => (none, [NativeCall.closedirC p])
  | none => (none, [])

/-- `n` successive closes of the same shared handle (DirIter::close,
Entry::stop and the Drop impl all delegate to DirHandle::close). -/
def closeSeq : Option Nat → Nat → Option Nat × List NativeCall
  | s, 0 => (s, [])
  | s, n + 1 =>
    let r1 := DirHandle.close s
    let r2 := closeSeq r1.1 n
    (r2.1, r1.2 ++ r2.2)

/-- One native dirent as readdir surfaces it. -/
structure Dirent where
  d_name : List Char
  d_type : Nat
  d_ino : Nat
  deriving DecidableEq, Repr

/-- One outcome of a native readdir advance: an entry, or a null return with
errno set (an OS error item). A null return past the end of the list with
errno still clear is the end of the stream. -/
inductive ReadResult where
  | ent (d : Dirent)
  | errObj (code : Int)
  deriving DecidableEq, Repr

/-- Iterator state: the shared handle pointer and the native entries the
stream has left to produce. -/
structure IterState where
  handle : Option Nat
  stream : List ReadResult
  deriving DecidableEq, Repr

/-- Entry as built by Iterator::next (list.rs 177-189). -/
structure Entry where
  name : List Char
  file_type : Option SimpleType
  ino : Nat
  deriving DecidableEq, Repr

/-- d_type to simplified type map of Iterator::next (list.rs 181-187):
0 (DT_UNKNOWN) has no hint; DT_REG = 8, DT_DIR = 4, DT_LNK = 10. -/
def dTypeToSimple (t : Nat) : Option SimpleType :=
  match t with
  | 0 => none
  | 8 => some SimpleType.file
  | 4 => some SimpleType.dir
  | 10 => some SimpleType.symlink
  | _ => some SimpleType.other

def mkEntry (d : Dirent) : Entry :=
  ⟨d.d_name, dTypeToSimple d.d_type, d.d_ino⟩

/-- The name equals "." or ".." (the DOT / DOTDOT comparisons of
Iterator::next, list.rs 175-176). -/
def isDotName (n : List Char) : Bool :=
  n = ['.'] || n = ['.', '.']

/-- The skipping loop of Iterator::next (list.rs 168-193) over the native
stream: a readdir error becomes an error item; end of the native entries is
end of stream; "." and ".." entries are skipped; any other entry is yielded.
Returns the produced item and the rest of the stream. -/
def iterNextGo : List ReadResult → Option (Except IoErr Entry) × List ReadResult
  | [] => (none, [])
  | ReadResult.errObj c :: rest => (some (Except.error (IoErr.osError c)), rest)
  | ReadResult.ent d :: rest =>
    if isDotName d.d_name then iterNextGo rest
    else (some (Except.ok (mkEntry d)), rest)

/-- Iterator::next for DirIter: next_entry first dereferences the shared
handle (list.rs 112: readdir(self.dir.raw()?)), so a closed handle yields the
EBADF error item; otherwise the skipping loop runs on the native stream. -/
def DirIter.next (st : IterState) : Option (Except IoErr Entry) × IterState :=
  match st.handle with
  | none => (some (Except.error (IoErr.osError EBADF)), st)
  | some p =>
    let r := iterNextGo st.stream
    (r.1, ⟨some p, r.2⟩)

/-- DirIter::current_position (list.rs 124-132): dereference the shared
handle, then ask telldir (its result and, on -1, the errno are oracles). -/
def DirIter.current_position (st : IterState) (telldirRes errnoVal : Int) :
    Except IoErr Int :=
  match DirHandle.raw st.handle with
  | Except.error e => Except.error e
  | Except.ok _ =>
    if telldirRes = -1 then Except.error (IoErr.osError errnoVal)
    else Except.ok telldirRes

/-- DirIter::seek (list.rs 136-140): `if let Ok(dir) = self.dir.raw()` — on a
closed handle nothing at all happens; otherwise one seekdir call. -/
def DirIter.seek (st : IterState) (pos : Int) : Unit × List NativeCall :=
  match DirHandle.raw st.handle with
  | Except.ok p => ((), [NativeCall.seekdirC p pos])
  | Except.error _ => ((), [])

/-- DirIter::rewind (list.rs 143-147): same guarded pattern with rewinddir. -/
def DirIter.rewind (st : IterState) : Unit × List NativeCall :=
  match DirHandle.raw st.handle with
  | Except.ok p => ((), [NativeCall.rewinddirC p])
  | Except.error _ => ((), [])

/-- Entry::metadata (list.rs 71-82): dereference the shared handle first
(dirfd(self.dir.raw()?)), then the fstatat outcome (an oracle: error code or
an opaque stat payload) is converted. -/
def Entry.metadata (shared : Option Nat) (statRes : Except Int Nat) :
    Except IoErr Nat :=
  match DirHandle.raw shared with
  | Except.error e => Except.error e
  | Except.ok _ =>
    match statRes with
    | Except.error c => Except.error (IoErr.osError c)
    | Except.ok m => Except.ok m

/-- The first native stream element that is not a "." or ".." entry. -/
def firstRelevant : List ReadResult → Option ReadResult
  | [] => none
  | ReadResult.errObj c :: _ => some (ReadResult.errObj c)
  | ReadResult.ent d :: rest =>
    if isDotName d.d_name then firstRelevant rest
    else some (ReadResult.ent d)

/-- A stream element that the iterator filters out. -/
def isDotRes : ReadResult → Bool
  | ReadResult.ent d => isDotName d.d_name
  | ReadResult.errObj _ => false

/-! ### Handle classification and cloning (dir.rs 577-643) -/

/-- Classification of a raw descriptor (dir.rs FdType). -/
inductive FdType where
  | normalDir
  | oPathDir
  | other
  deriving DecidableEq, Repr

/-- The flag-introspection classifier fd_type (dir.rs 653-675): the
"directory" bit decides dir vs other; the "restricted" O_PATH bit is
consulted only where the o_path capability exists. -/
def fd_type_flags (oPathSupported : Bool) (flags : Nat) : FdType :=
  if flags &&& O_DIRECTORY ≠ 0 then
    if oPathSupported && decide (flags &&& O_PATH ≠ 0) then FdType.oPathDir
    else FdType.normalDir
  else FdType.other

/-- How clone_dirfd produced the new descriptor. -/
inductive CloneAction where
  | reopenDot
  | dupFd
  deriving DecidableEq, Repr

/-- Flags clone_dirfd passes when re-opening through "." (dir.rs 598-602). -/
def reopenDotFlags : Nat := O_DIRECTORY ||| O_CLOEXEC

/-- clone_dirfd (dir.rs 595-608), given the source's classification: a normal
directory is re-opened through "."; an O_PATH directory is duplicated, an arm
that only exists under the o_path capability; everything else (including an
O_PATH source where the capability is compiled out) is ENOTDIR. -/
def clone_dirfd (oPathSupported : Bool) (t : FdType) : Except IoErr CloneAction :=
  match t with
  | FdType.normalDir => Except.ok CloneAction.reopenDot
  | FdType.oPathDir =>
    if oPathSupported then Except.ok CloneAction.dupFd
    else Except.error (IoErr.osError ENOTDIR)
  | FdType.other => Except.error (IoErr.osError ENOTDIR)

/-- Classification of the descriptor clone_dirfd returns: a re-open through
"." carries exactly reopenDotFlags; dup preserves the source's flags. -/
def cloneResultType (oPathSupported : Bool) (src : FdType) : CloneAction → FdType
  | CloneAction.reopenDot => fd_type_flags oPathSupported reopenDotFlags
  | CloneAction.dupFd => src

/-! ### Path argument conversion and null-byte rejection (dir.rs 818-824) -/

/-- Modelled from the spec: the AsPath::to_path conversion implemented in the
repository's name module, which is not under src/ — "accepts any path-like
value, converts to a null-terminated byte sequence, fails ... if the value
contains an embedded null byte" (the CString::new contract). -/
def to_path (bytes : List Nat) : Option (List Nat) :=
  if bytes.contains 0 then none else some (bytes ++ [0])

/-- dir.rs to_cstr: a None conversion becomes the invalid-input error "nul
byte in file name". -/
def to_cstr (bytes : List Nat) : Except IoErr (List Nat) :=
  match to_path bytes with
  | none => Except.error (IoErr.invalidInput "nul byte in file name")
  | some c => Except.ok c

/-- Dir::remove_file (dir.rs 461-465): convert the path, then issue the one
OS call, whose outcome is the oracle `osRes`. The Bool records whether the OS
call was reached. -/
def Dir.remove_file (osRes : Option IoErr) (bytes : List Nat) :
    Except IoErr Unit × Bool :=
  match to_cstr bytes with
  | Except.error e => (Except.error e, false)
  | Except.ok _ =>
    match osRes with
    | none => (Except.ok (), true)
    | some e => (Except.error e, true)

/-- Dir::create_dir (dir.rs 416-420): same conversion-then-syscall shape. -/
def Dir.create_dir (osRes : Option IoErr) (bytes : List Nat) :
    Except IoErr Unit × Bool :=
  match to_cstr bytes with
  | Except.error e => (Except.error e, false)
  | Except.ok _ =>
    match osRes with
    | none => (Except.ok (), true)
    | some e => (Except.error e, true)

/-- Dir::open_file (dir.rs 192-195): conversion, then the openat call. -/
def Dir.open_file (osRes : Except IoErr Nat) (bytes : List Nat) :
    Except IoErr Nat × Bool :=
  match to_cstr bytes with
  | Except.error e => (Except.error e, false)
  | Except.ok _ => (osRes, true)

/-- The free function rename (dir.rs 703-708): both path arguments are
converted before the renameat call; a null byte in either aborts first. -/
def renameOp (osRes : Option IoErr) (oldBytes newBytes : List Nat) :
    Except IoErr Unit × Bool :=
  match to_cstr oldBytes with
  | Except.error e => (Except.error e, false)
  | Except.ok _ =>
    match to_cstr newBytes with
    | Except.error e => (Except.error e, false)
    | Except.ok _ =>
      match osRes with
      | none => (Except.ok (), true)
      | some e => (Except.error e, true)

/-! ## Theorems -/

/-- Claim C4 (code bug): the per-call open-file family always passes
close-on-exec (bit 19), but it also always passes no-follow (bit 17): even a
builder produced by without(O_NOFOLLOW) — whose accumulated flags provably
lack the bit — reaches openat with O_NOFOLLOW set, because _open_file ORs
O_CLOEXEC|O_NOFOLLOW unconditionally. Only sub_dir honours the suppression.
This contradicts the builder's documented contract that without() removes
O_NOFOLLOW for the open() calls. -/
theorem c4_nofollow_forced :
    (Dir.without O_NOFOLLOW).flags &&& O_NOFOLLOW = 0
    ∧ Nat.testBit ((Dir.without O_NOFOLLOW).open_file) 17 = true
    ∧ Nat.testBit ((Dir.without O_NOFOLLOW).write_file) 17 = true
    ∧ Nat.testBit ((Dir.without O_NOFOLLOW).append_file) 17 = true
    ∧ Nat.testBit ((Dir.without O_NOFOLLOW).new_file) 17 = true
    ∧ Nat.testBit ((Dir.without O_NOFOLLOW).open_file) 19 = true
    ∧ Nat.testBit ((Dir.without O_NOFOLLOW).sub_dir) 17 = false := by
  decide

/-- Claim C5, counterexample: Dir::open does not restrict the O_PATH flag to
callers who asked for an anchor-only handle — the flag set it passes differs
from the spec-modelled "caller did not ask" flag set, because the restricted
flag (bit 21) is always present. -/
theorem c5_counterexample :
    Dir.openFlags ≠ open_flags_spec false
    ∧ Nat.testBit Dir.openFlags 21 = true := by
  decide

/-- Claim C5 (amended): Dir::open always requests directory + close-on-exec +
the restricted-anchor flag (it matches the spec model with the restricted
flag requested); a caller who wants a Normal handle instead uses
Dir::flags().open(), whose default flag set is directory + close-on-exec
without the restricted flag. -/
theorem c5_open_flags :
    Dir.openFlags = O_DIRECTORY ||| O_PATH ||| O_CLOEXEC
    ∧ Dir.openFlags = open_flags_spec true
    ∧ Nat.testBit Dir.openFlags 16 = true
    ∧ Nat.testBit Dir.openFlags 19 = true
    ∧ Dir.flagsBuilder.openFlags = O_DIRECTORY ||| O_CLOEXEC
    ∧ Nat.testBit Dir.flagsBuilder.openFlags 21 = false := by
  decide

/-- Claim C7: try_clone's clone_dirfd re-opens a Normal source through ".",
duplicates an O_PATH (restricted) source where the o_path capability exists,
fails with ENOTDIR on an Other source, and the descriptor it produces always
carries the same classification as the source. -/
theorem c7_try_clone :
    ∀ oPathSupported : Bool,
      clone_dirfd oPathSupported FdType.normalDir = Except.ok CloneAction.reopenDot
      ∧ (oPathSupported = true →
          clone_dirfd oPathSupported FdType.oPathDir = Except.ok CloneAction.dupFd)
      ∧ clone_dirfd oPathSupported FdType.other =
          Except.error (IoErr.osError ENOTDIR)
      ∧ ∀ t r, clone_dirfd oPathSupported t = Except.ok r →
          cloneResultType oPathSupported t r = t := by
  intro cap
  refine ⟨?_, ?_, ?_, ?_⟩
  · cases cap <;> rfl
  · intro hc; subst hc; rfl
  · cases cap <;> rfl
  · intro t r hr
    cases cap <;> cases t <;> cases r <;>
      simp_all [clone_dirfd, cloneResultType] <;> decide

/-- Witness for c7_try_clone at concrete classifications. -/
theorem c7_try_clone_witness :
    clone_dirfd true FdType.oPathDir = Except.ok CloneAction.dupFd
    ∧ cloneResultType true FdType.normalDir CloneAction.reopenDot =
        FdType.normalDir :=
  ⟨(c7_try_clone true).2.1 rfl,
   (c7_try_clone true).2.2.2 FdType.normalDir CloneAction.reopenDot rfl⟩

/-- Claim C8: a path argument containing an embedded null byte makes the
conversion, and with it every operation consuming it (remove_file,
create_dir, open_file, rename in either argument), fail with the
invalid-input "nul byte in file name" error, with the OS call never
reached. -/
theorem c8_nul_byte (bytes : List Nat) (h : bytes.contains 0 = true) :
    to_cstr bytes = Except.error (IoErr.invalidInput "nul byte in file name")
    ∧ (∀ osRes, Dir.remove_file osRes bytes =
        (Except.error (IoErr.invalidInput "nul byte in file name"), false))
    ∧ (∀ osRes, Dir.create_dir osRes bytes =
        (Except.error (IoErr.invalidInput "nul byte in file name"), false))
    ∧ (∀ osRes, Dir.open_file osRes bytes =
        (Except.error (IoErr.invalidInput "nul byte in file name"), false))
    ∧ (∀ osRes other, renameOp osRes bytes other =
        (Except.error (IoErr.invalidInput "nul byte in file name"), false))
    ∧ (∀ osRes other, other.contains 0 = false → renameOp osRes other bytes =
        (Except.error (IoErr.invalidInput "nul byte in file name"), false)) := by
  have h' : 0 ∈ bytes := by simpa using h
  have hc : to_cstr bytes =
      Except.error (IoErr.invalidInput "nul byte in file name") := by
    simp [to_cstr, to_path, h']
  refine ⟨hc, ?_, ?_, ?_, ?_, ?_⟩
  · intro osRes; simp [Dir.remove_file, hc]
  · intro osRes; simp [Dir.create_dir, hc]
  · intro osRes; simp [Dir.open_file, hc]
  · intro osRes other; simp [renameOp, hc]
  · intro osRes other ho
    have ho' : ¬ (0 ∈ other) := by simpa using ho
    simp [renameOp, hc, to_cstr, to_path, ho', h']

/-- Witness for c8_nul_byte on the byte string "h\x00". -/
theorem c8_nul_byte_witness :
    to_cstr [104, 0] = Except.error (IoErr.invalidInput "nul byte in file name")
    ∧ Dir.remove_file none [104, 0] =
        (Except.error (IoErr.invalidInput "nul byte in file name"), false) :=
  ⟨(c8_nul_byte [104, 0] (by decide)).1,
   (c8_nul_byte [104, 0] (by decide)).2.1 none⟩

/-- Claim C9: remove_recursive_atomic with a non-empty staging directory and
a path with no final normal component takes the unwrap-of-None path — a
panic — rather than returning an error value. -/
theorem c9_unwrap_failure (renameOk : List PComp → Bool)
    (doRemove : List PComp → RunOutcome Unit) (path tmpDir : List PComp)
    (h1 : tmpDir ≠ []) (h2 : fileNameP path = none) :
    remove_recursive_atomic renameOk doRemove path tmpDir =
      RunOutcome.unwrapFailed := by
  have he : tmpDir.isEmpty = false := by
    cases tmpDir with
    | nil => exact absurd rfl h1
    | cons a l => rfl
  simp [remove_recursive_atomic, toDeleteOf, he, h2]

/-- Witness for c9_unwrap_failure: staging dir "t", path "..". -/
theorem c9_unwrap_failure_witness :
    remove_recursive_atomic (fun _ => false) (fun _ => RunOutcome.ok ())
      [PComp.parentc] [PComp.normal ['t']] = RunOutcome.unwrapFailed :=
  c9_unwrap_failure (fun _ => false) (fun _ => RunOutcome.ok ())
    [PComp.parentc] [PComp.normal ['t']] (by decide) (by decide)

/-- Claim C10: seek and rewind on an iterator whose shared stream pointer was
swapped to null return unit normally and issue no native call at all. -/
theorem c10_seek_rewind_closed (st : IterState) (pos : Int)
    (h : st.handle = none) :
    DirIter.seek st pos = ((), []) ∧ DirIter.rewind st = ((), []) := by
  simp [DirIter.seek, DirIter.rewind, DirHandle.raw, h]

/-- Witness for c10_seek_rewind_closed on a concrete closed iterator. -/
theorem c10_seek_rewind_closed_witness :
    DirIter.seek ⟨none, []⟩ 3 = ((), [])
    ∧ DirIter.rewind ⟨none, []⟩ = ((), []) :=
  c10_seek_rewind_closed ⟨none, []⟩ 3 rfl

/-- A closed shared handle stays closed and issues no further native call. -/
theorem closeSeq_none (n : Nat) : closeSeq none n = (none, []) := by
  induction n with
  | zero => rfl
  | succ m ih => simp [closeSeq, DirHandle.close, ih]

/-- Closing an open shared handle any positive number of times issues exactly
one closedir. -/
theorem closeSeq_some (p m : Nat) :
    closeSeq (some p) (m + 1) = (none, [NativeCall.closedirC p]) := by
  simp [closeSeq, DirHandle.close, closeSeq_none]

/-- Claim C3: once the shared stream pointer is null, next, current_position
and Entry::metadata all fail with the EBADF "bad descriptor" error; and any
number of closes of the shared handle (from the iterator or an Entry) calls
closedir at most once — exactly once when the handle was open — after which
the pointer is null. -/
theorem c3_closed_stream :
    (∀ st : IterState, st.handle = none →
        DirIter.next st = (some (Except.error (IoErr.osError EBADF)), st))
    ∧ (∀ (st : IterState) (t e : Int), st.handle = none →
        DirIter.current_position st t e = Except.error (IoErr.osError EBADF))
    ∧ (∀ statRes : Except Int Nat,
        Entry.metadata none statRes = Except.error (IoErr.osError EBADF))
    ∧ (∀ (s : Option Nat) (n : Nat), (closeSeq s n).2.length ≤ 1)
    ∧ (∀ n : Nat, (closeSeq none n).2 = [])
    ∧ (∀ p n : Nat, 1 ≤ n → (closeSeq (some p) n).2 = [NativeCall.closedirC p])
    ∧ (∀ (s : Option Nat) (n : Nat), 1 ≤ n → (closeSeq s n).1 = none) := by
  refine ⟨?_, ?_, ?_, ?_, ?_, ?_, ?_⟩
  · intro st h; cases st; simp_all [DirIter.next]
  · intro st t e h; cases st; simp_all [DirIter.current_position, DirHandle.raw]
  · intro statRes; rfl
  · intro s n
    cases s with
    | none => simp [closeSeq_none]
    | some p =>
      cases n with
      | zero => simp [closeSeq]
      | succ m => simp [closeSeq_some]
  · intro n; simp [closeSeq_none]
  · intro p n hn
    cases n with
    | zero => omega
    | succ m => simp [closeSeq_some]
  · intro s n hn
    cases n with
    | zero => omega
    | succ m =>
      cases s with
      | none => simp [closeSeq_none]
      | some p => simp [closeSeq_some]

/-- Witness for c3_closed_stream at a concrete closed iterator state and a
concrete triple close. -/
theorem c3_closed_stream_witness :
    DirIter.next ⟨none, []⟩ = (some (Except.error (IoErr.osError EBADF)), ⟨none, []⟩)
    ∧ Entry.metadata none (Except.ok 0) = Except.error (IoErr.osError EBADF)
    ∧ (closeSeq (some 5) 3).2 = [NativeCall.closedirC 5] :=
  ⟨c3_closed_stream.1 ⟨none, []⟩ rfl,
   c3_closed_stream.2.2.1 (Except.ok 0),
   c3_closed_stream.2.2.2.2.2.1 5 3 (by decide)⟩

/-- The iterator's skipping loop yields exactly what the first native stream
element that is not a "." or ".." entry dictates. -/
theorem iterNextGo_eq_firstRelevant (stream : List ReadResult) :
    (iterNextGo stream).1 =
      (match firstRelevant stream with
       | none => none
       | some (ReadResult.errObj c) => some (Except.error (IoErr.osError c))
       | some (ReadResult.ent d) => some (Except.ok (mkEntry d))) := by
  induction stream with
  | nil => rfl
  | cons r rest ih =>
    cases r with
    | errObj c => rfl
    | ent d =>
      by_cases hd : isDotName d.d_name = true
      · simp [iterNextGo, firstRelevant, hd, ih]
      · simp [iterNextGo, firstRelevant, hd]

/-- The skipping loop finds nothing exactly when every remaining native
element is a "." or ".." entry. -/
theorem firstRelevant_none_iff (stream : List ReadResult) :
    firstRelevant stream = none ↔ ∀ r ∈ stream, isDotRes r = true := by
  induction stream with
  | nil => simp [firstRelevant]
  | cons r rest ih =>
    cases r with
    | errObj c => simp [firstRelevant, isDotRes]
    | ent d =>
      by_cases hd : isDotName d.d_name = true
      · simp [firstRelevant, hd, ih, isDotRes]
      · simp [firstRelevant, hd, isDotRes]

/-- The first relevant element, when it is an entry, is not "." or "..". -/
theorem firstRelevant_ent_not_dot (stream : List ReadResult) (d : Dirent)
    (h : firstRelevant stream = some (ReadResult.ent d)) :
    isDotName d.d_name = false := by
  induction stream with
  | nil => simp [firstRelevant] at h
  | cons r rest ih =>
    cases r with
    | errObj c => simp [firstRelevant] at h
    | ent d' =>
      simp only [firstRelevant] at h
      by_cases hd : isDotName d'.d_name = true
      · rw [if_pos hd] at h; exact ih h
      · rw [if_neg hd] at h
        injection h with h1
        injection h1 with h2
        subst h2
        exact Bool.eq_false_iff.mpr hd

/-- Claim C6: on an open stream, next never yields an entry named "." or
".."; its result is dictated by the first non-dot native element (an entry
with its name, type tag and inode, an OS-error item, or nothing); and the
end-of-stream outcome happens exactly when only dot entries remain. -/
theorem c6_iter_filters_dots (p : Nat) (stream : List ReadResult) :
    (∀ e : Entry, (DirIter.next ⟨some p, stream⟩).1 = some (Except.ok e) →
        isDotName e.name = false)
    ∧ (DirIter.next ⟨some p, stream⟩).1 =
        (match firstRelevant stream with
         | none => none
         | some (ReadResult.errObj c) => some (Except.error (IoErr.osError c))
         | some (ReadResult.ent d) => some (Except.ok (mkEntry d)))
    ∧ (firstRelevant stream = none ↔ ∀ r ∈ stream, isDotRes r = true) := by
  have hnext : (DirIter.next ⟨some p, stream⟩).1 = (iterNextGo stream).1 := rfl
  refine ⟨?_, hnext.trans (iterNextGo_eq_firstRelevant stream),
    firstRelevant_none_iff stream⟩
  intro e he
  rw [hnext, iterNextGo_eq_firstRelevant] at he
  rcases hf : firstRelevant stream with _ | r
  · rw [hf] at he; cases he
  · rw [hf] at he
    cases r with
    | errObj c => simp at he
    | ent d =>
      have hd := firstRelevant_ent_not_dot stream d hf
      simp only [] at he
      injection he with h1
      injection h1 with h2
      subst h2
      simpa [mkEntry] using hd

/-- Witness for c6_iter_filters_dots: a stream holding ".", ".." and "a"
yields the entry "a", which is not a dot name. -/
theorem c6_iter_filters_dots_witness :
    isDotName (Entry.mk ['a'] (some SimpleType.file) 3).name = false :=
  (c6_iter_filters_dots 7
      [ReadResult.ent ⟨['.'], 4, 1⟩, ReadResult.ent ⟨['.', '.'], 4, 2⟩,
        ReadResult.ent ⟨['a'], 8, 3⟩]).1
    (Entry.mk ['a'] (some SimpleType.file) 3) rfl

/-- Claim C1, counterexample: on a directory whose single child is a
directory with an absent d_type hint, the code removes the child as a file
and aborts with EISDIR, while the walk the spec sentence describes (status
query when the hint is absent) recurses and succeeds: there is no fallback
status query. -/
theorem c1_counterexample :
    (remove_recursive ["d"] (FsNode.dir [("sub", none, FsNode.dir [])])).2 =
      some (IoErr.osError EISDIR)
    ∧ (remove_recursive_spec ["d"]
        (FsNode.dir [("sub", none, FsNode.dir [])])).2 = none
    ∧ remove_recursive ["d"] (FsNode.dir [("sub", none, FsNode.dir [])]) ≠
        remove_recursive_spec ["d"] (FsNode.dir [("sub", none, FsNode.dir [])]) := by
  decide

/-- Single-step equation for remove_recursive on a file node. -/
theorem remove_recursive_file_eq (p : List String) :
    remove_recursive p FsNode.file = ([], some (IoErr.osError ENOTDIR)) := rfl

/-- Single-step equation for remove_recursive on a directory node. -/
theorem remove_recursive_dir_eq (p : List String)
    (es : List (String × Option SimpleType × FsNode)) :
    remove_recursive p (FsNode.dir es) =
      (match remove_recursive_entries p es with
       | (ops, some e) => (ops, some e)
       | (ops, none) => (ops ++ [FsOp.unlinkDir p], none)) := rfl

/-- Single-step equation for remove_recursive_entries on the empty list. -/
theorem remove_recursive_entries_nil_eq (p : List String) :
    remove_recursive_entries p [] = ([], none) := rfl

/-- Single-step equation for remove_recursive_entries on a cons. -/
theorem remove_recursive_entries_cons_eq (p : List String) (name : String)
    (hint : Option SimpleType) (child : FsNode)
    (rest : List (String × Option SimpleType × FsNode)) :
    remove_recursive_entries p ((name, hint, child) :: rest) =
      (if hint = some SimpleType.dir then
        match remove_recursive (p ++ [name]) child with
        | (ops, some e) => (ops, some e)
        | (ops, none) =>
          let r := remove_recursive_entries p rest
          (ops ++ r.1, r.2)
      else
        match child with
        | .dir _ => ([], some (IoErr.osError EISDIR))
        | .file =>
          let r := remove_recursive_entries p rest
          (FsOp.unlinkFile (p ++ [name]) :: r.1, r.2)) := rfl

/-- When every hint in a subtree matches the actual node type, the removal
walk succeeds, and the trace of a directory ends by unlinking the directory
itself after all of its children's operations. -/
theorem remove_recursive_success (k : Nat) :
    (∀ node, nodeSize node ≤ k → ∀ p, hintsGood node = true →
        isDirNode node = true →
        (remove_recursive p node).2 = none ∧
        ∃ ops, (remove_recursive p node).1 = ops ++ [FsOp.unlinkDir p])
    ∧ (∀ es, entsSize es ≤ k → ∀ p, hintsGoodEntries es = true →
        (remove_recursive_entries p es).2 = none) := by
  induction k with
  | zero =>
    constructor
    · intro node hs p hg hd
      cases node with
      | file => simp [isDirNode] at hd
      | dir es => simp [nodeSize] at hs
    · intro es hs p hg
      cases es with
      | nil => exact rfl
      | cons e rest =>
        obtain ⟨name, hint, child⟩ := e
        simp [entsSize] at hs
  | succ m ih =>
    constructor
    · intro node hs p hg hd
      cases node with
      | file => simp [isDirNode] at hd
      | dir es =>
        have hes : entsSize es ≤ m := by
          simp [nodeSize] at hs; omega
        have h2 := ih.2 es hes p (by simpa [hintsGood] using hg)
        rcases hres : remove_recursive_entries p es with ⟨ops, oerr⟩
        rw [hres] at h2
        simp only [] at h2
        subst h2
        constructor
        · rw [remove_recursive_dir_eq, hres]
        · exact ⟨ops, by rw [remove_recursive_dir_eq, hres]⟩
    · intro es hs p hg
      cases es with
      | nil => exact rfl
      | cons e rest =>
        obtain ⟨name, hint, child⟩ := e
        have h1 : (decide (hint = some SimpleType.dir) = isDirNode child
            ∧ hintsGood child = true) ∧ hintsGoodEntries rest = true := by
          simpa [hintsGoodEntries, Bool.and_eq_true, decide_eq_true_eq] using hg
        have hsc : nodeSize child ≤ m := by
          simp [entsSize] at hs; omega
        have hsr : entsSize rest ≤ m := by
          simp [entsSize] at hs; omega
        have hrest := ih.2 rest hsr p h1.2
        by_cases hh : hint = some SimpleType.dir
        · have hdc : isDirNode child = true := by
            rw [← h1.1.1]
            simp [hh]
          have hchild := ih.1 child hsc (p ++ [name]) h1.1.2 hdc
          rcases hres : remove_recursive (p ++ [name]) child with ⟨cops, coerr⟩
          rw [hres] at hchild
          have hce : coerr = none := hchild.1
          subst hce
          rw [remove_recursive_entries_cons_eq, if_pos hh, hres]
          simpa using hrest
        · cases child with
          | dir es' => exact absurd (of_decide_eq_true h1.1.1) hh
          | file =>
            rw [remove_recursive_entries_cons_eq, if_neg hh]
            simpa using hrest

/-- Every operation recorded while processing a directory's entries acts
strictly below the directory's own path. -/
theorem remove_recursive_ops_deeper (k : Nat) :
    (∀ node, nodeSize node ≤ k → ∀ p op, op ∈ (remove_recursive p node).1 →
        p.length ≤ op.opPath.length)
    ∧ (∀ es, entsSize es ≤ k → ∀ p op,
        op ∈ (remove_recursive_entries p es).1 →
        p.length < op.opPath.length) := by
  induction k with
  | zero =>
    constructor
    · intro node hs p op hop
      cases node with
      | file => simp [remove_recursive] at hop
      | dir es => simp [nodeSize] at hs
    · intro es hs p op hop
      cases es with
      | nil => simp [remove_recursive_entries] at hop
      | cons e rest =>
        obtain ⟨name, hint, child⟩ := e
        simp [entsSize] at hs
  | succ m ih =>
    constructor
    · intro node hs p op hop
      cases node with
      | file => simp [remove_recursive_file_eq] at hop
      | dir es =>
        have hes : entsSize es ≤ m := by
          simp [nodeSize] at hs; omega
        rcases hres : remove_recursive_entries p es with ⟨ops, oerr⟩
        cases oerr with
        | none =>
          rw [remove_recursive_dir_eq, hres] at hop
          simp at hop
          rcases hop with hop | hop
          · have := ih.2 es hes p op (by rw [hres]; exact hop)
            omega
          · subst hop; simp [FsOp.opPath]
        | some e =>
          rw [remove_recursive_dir_eq, hres] at hop
          simp at hop
          have := ih.2 es hes p op (by rw [hres]; exact hop)
          omega
    · intro es hs p op hop
      cases es with
      | nil => simp [remove_recursive_entries_nil_eq] at hop
      | cons e rest =>
        obtain ⟨name, hint, child⟩ := e
        have hsc : nodeSize child ≤ m := by
          simp [entsSize] at hs; omega
        have hsr : entsSize rest ≤ m := by
          simp [entsSize] at hs; omega
        by_cases hh : hint = some SimpleType.dir
        · rcases hres : remove_recursive (p ++ [name]) child with ⟨ops, oerr⟩
          cases oerr with
          | none =>
            rw [remove_recursive_entries_cons_eq, if_pos hh, hres] at hop
            simp at hop
            rcases hop with hop | hop
            · have := ih.1 child hsc (p ++ [name]) op (by rw [hres]; exact hop)
              simp [List.length_append] at this
              omega
            · exact ih.2 rest hsr p op hop
          | some e =>
            rw [remove_recursive_entries_cons_eq, if_pos hh, hres] at hop
            simp at hop
            have := ih.1 child hsc (p ++ [name]) op (by rw [hres]; exact hop)
            simp [List.length_append] at this
            omega
        · cases child with
          | dir es' =>
            rw [remove_recursive_entries_cons_eq, if_neg hh] at hop
            simp at hop
          | file =>
            rw [remove_recursive_entries_cons_eq, if_neg hh] at hop
            simp at hop
            rcases hop with hop | hop
            · subst hop; simp [FsOp.opPath, List.length_append]
            · exact ih.2 rest hsr p op hop

/-- Claim C1 (amended): remove_recursive lists the target and recurses
exactly into entries whose quick d_type hint equals Dir; every other entry —
including one with an absent hint — is removed as a file, with no fallback
status query (removing an actual directory this way fails at once with
EISDIR); when all hints are accurate the walk succeeds and the directory
itself is unlinked last, after all of its children's operations; and a
failure on any child aborts the walk with that error, before the directory
itself is ever removed (ops already performed are not rolled back). -/
theorem c1_remove_recursive (p : List String) :
    (∀ entries, hintsGoodEntries entries = true →
        (remove_recursive p (FsNode.dir entries)).2 = none ∧
        (remove_recursive p (FsNode.dir entries)).1.getLast? =
          some (FsOp.unlinkDir p))
    ∧ (∀ name hint rest, hint ≠ some SimpleType.dir →
        remove_recursive_entries p ((name, hint, FsNode.file) :: rest) =
          (FsOp.unlinkFile (p ++ [name]) ::
              (remove_recursive_entries p rest).1,
            (remove_recursive_entries p rest).2))
    ∧ (∀ name hint sub rest, hint ≠ some SimpleType.dir →
        remove_recursive_entries p ((name, hint, FsNode.dir sub) :: rest) =
          ([], some (IoErr.osError EISDIR)))
    ∧ (∀ entries e, (remove_recursive_entries p entries).2 = some e →
        (remove_recursive p (FsNode.dir entries)).2 = some e ∧
        FsOp.unlinkDir p ∉ (remove_recursive p (FsNode.dir entries)).1) := by
  refine ⟨?_, ?_, ?_, ?_⟩
  · intro entries hg
    have hnode := (remove_recursive_success (nodeSize (FsNode.dir entries))).1
      (FsNode.dir entries) le_rfl p (by simpa [hintsGood] using hg) rfl
    obtain ⟨ops, hops⟩ := hnode.2
    exact ⟨hnode.1, by simp [hops]⟩
  · intro name hint rest hh
    rw [remove_recursive_entries_cons_eq, if_neg hh]
  · intro name hint sub rest hh
    rw [remove_recursive_entries_cons_eq, if_neg hh]
  · intro entries e he
    rcases hres : remove_recursive_entries p entries with ⟨ops, oerr⟩
    rw [hres] at he
    simp only [] at he
    subst he
    constructor
    · rw [remove_recursive_dir_eq, hres]
    · intro hmem
      rw [remove_recursive_dir_eq, hres] at hmem
      simp at hmem
      have := (remove_recursive_ops_deeper
          (entsSize entries)).2 entries le_rfl p (FsOp.unlinkDir p)
        (by rw [hres]; exact hmem)
      simp [FsOp.opPath] at this

/-- Witness for c1_remove_recursive at a concrete accurately hinted tree and
a concrete hint-absent file entry. -/
theorem c1_remove_recursive_witness :
    ((remove_recursive ["d"]
        (FsNode.dir [("a", some SimpleType.file, FsNode.file)])).2 = none
      ∧ (remove_recursive ["d"]
          (FsNode.dir [("a", some SimpleType.file, FsNode.file)])).1.getLast? =
        some (FsOp.unlinkDir ["d"]))
    ∧ remove_recursive_entries ["d"] [("b", none, FsNode.file)] =
        (FsOp.unlinkFile ["d", "b"] ::
            (remove_recursive_entries ["d"] []).1,
          (remove_recursive_entries ["d"] []).2) :=
  ⟨(c1_remove_recursive ["d"]).1 [("a", some SimpleType.file, FsNode.file)]
      (by decide),
   (c1_remove_recursive ["d"]).2.1 "b" none [] (by decide)⟩

/-- The fuel argument of the digit expansion is irrelevant once sufficient. -/
theorem natDigitsAux_congr : ∀ f1 f2 n, n < f1 → n < f2 →
    natDigitsAux f1 n = natDigitsAux f2 n := by
  intro f1
  induction f1 with
  | zero => intro f2 n h1 h2; omega
  | succ m ih =>
    intro f2 n h1 h2
    cases f2 with
    | zero => omega
    | succ l =>
      rw [natDigitsAux, natDigitsAux]
      by_cases h : n < 10
      · simp [h]
      · have hd : n / 10 < n := Nat.div_lt_self (by omega) (by omega)
        simp [h, ih l (n / 10) (by omega) (by omega)]

/-- Recursive characterisation of natDigits. -/
theorem natDigits_eq (n : Nat) :
    natDigits n = if n < 10 then [toDigitChar n]
      else natDigits (n / 10) ++ [toDigitChar (n % 10)] := by
  show natDigitsAux (n + 1) n = _
  rw [natDigitsAux]
  by_cases h : n < 10
  · simp [h]
  · have hd : n / 10 < n := Nat.div_lt_self (by omega) (by omega)
    rw [if_neg h, if_neg h]
    show natDigitsAux n (n / 10) ++ _ = natDigitsAux (n / 10 + 1) (n / 10) ++ _
    rw [natDigitsAux_congr n (n / 10 + 1) (n / 10) (by omega) (by omega)]

/-- Code point of a decimal digit character. -/
theorem toDigitChar_toNat (d : Nat) (h : d < 10) :
    (toDigitChar d).toNat = 48 + d := by
  interval_cases d <;> decide

/-- A decimal digit character is never a dot. -/
theorem toDigitChar_ne_dot (d : Nat) (h : d < 10) : toDigitChar d ≠ '.' := by
  interval_cases d <;> decide

/-- The digit expansion contains no dot. -/
theorem natDigitsAux_no_dot : ∀ fuel n, '.' ∉ natDigitsAux fuel n := by
  intro fuel
  induction fuel with
  | zero => intro n; simp [natDigitsAux]
  | succ m ih =>
    intro n
    rw [natDigitsAux]
    by_cases h : n < 10
    · simp [h]
      exact (toDigitChar_ne_dot n h).symm
    · simp [h]
      exact ⟨ih (n / 10), (toDigitChar_ne_dot (n % 10) (by omega)).symm⟩

/-- A rendered counter contains no dot. -/
theorem natDigits_no_dot (n : Nat) : '.' ∉ natDigits n :=
  natDigitsAux_no_dot (n + 1) n

/-- Appending one digit multiplies the value by ten. -/
theorem digitsVal_append (xs : List Char) (c : Char) :
    digitsVal (xs ++ [c]) = 10 * digitsVal xs + (c.toNat - 48) := by
  induction xs with
  | nil => simp [digitsVal]
  | cons d xs ih =>
    simp [digitsVal, ih, List.length_append]
    ring

/-- natDigits is a faithful decimal rendering: its value is the number. -/
theorem digitsVal_natDigits (n : Nat) : digitsVal (natDigits n) = n := by
  induction n using Nat.strong_induction_on with
  | _ n ih =>
    rw [natDigits_eq]
    by_cases h : n < 10
    · simp [h, digitsVal, toDigitChar_toNat n h]
    · have hd : n / 10 < n := Nat.div_lt_self (by omega) (by omega)
      rw [if_neg h, digitsVal_append, ih (n / 10) hd,
        toDigitChar_toNat (n % 10) (by omega)]
      omega

/-- Distinct counters render to distinct digit strings. -/
theorem natDigits_inj (a b : Nat) (h : natDigits a = natDigits b) : a = b := by
  have ha := digitsVal_natDigits a
  rw [h, digitsVal_natDigits] at ha
  omega

/-- A dot-free string has no final dot. -/
theorem beforeLastDot_no_dot (e : List Char) (he : '.' ∉ e) :
    beforeLastDot e = none := by
  induction e with
  | nil => rfl
  | cons c cs ih =>
    simp at he
    rw [beforeLastDot, ih he.2]
    simp [show c ≠ '.' from fun hc => he.1 hc.symm]

/-- The final dot of `s ++ "." ++ e` with dot-free `e` is the shown one. -/
theorem beforeLastDot_append_dot (s e : List Char) (he : '.' ∉ e) :
    beforeLastDot (s ++ '.' :: e) = some s := by
  induction s with
  | nil =>
    simp only [List.nil_append]
    rw [beforeLastDot, beforeLastDot_no_dot e he]
    simp
  | cons c cs ih => simp [beforeLastDot, ih]

/-- The stem of a non-empty name is non-empty. -/
theorem rustFileStem_ne_nil (m : List Char) (hm : m ≠ []) :
    rustFileStem m ≠ [] := by
  cases m with
  | nil => exact absurd rfl hm
  | cons c rest => cases hb : beforeLastDot rest <;> simp [rustFileStem, hb]

/-- Setting a dot-free extension leaves the stem unchanged — this is what
makes the rename loop's candidate names stable across iterations. -/
theorem rustFileStem_setExt (m e : List Char) (hm : m ≠ []) (he : '.' ∉ e) :
    rustFileStem (setExtChars m e) = rustFileStem m := by
  cases m with
  | nil => exact absurd rfl hm
  | cons c rest =>
    cases hb : beforeLastDot rest with
    | some s =>
      simp [setExtChars, rustFileStem, hb, List.cons_append,
        beforeLastDot_append_dot s e he]
    | none =>
      simp [setExtChars, rustFileStem, hb, List.cons_append,
        beforeLastDot_append_dot rest e he]

/-- set_extension on a path ending in a normal name rewrites that name. -/
theorem set_extension_concat (init : List PComp) (m ext : List Char) :
    set_extension (init ++ [PComp.normal m]) ext =
      init ++ [PComp.normal (setExtChars m ext)] := by
  simp [set_extension, fileNameP]

/-- The rename loop fails with the exhaustion error when every candidate in
its window is refused. -/
theorem renameLoop_all_fail (renameOk : List PComp → Bool) :
    ∀ (cnt i : Nat) (init : List PComp) (m : List Char), m ≠ [] →
      (∀ j, j < cnt → renameOk
        (init ++ [PComp.normal (rustFileStem m ++ '.' :: natDigits (i + j))]) =
          false) →
      renameLoop renameOk cnt i (init ++ [PComp.normal m]) =
        Except.error (IoErr.otherErr "Could not rename for remove") := by
  intro cnt
  induction cnt with
  | zero => intro i init m hm hall; rfl
  | succ c ih =>
    intro i init m hm hall
    have hstep : renameLoop renameOk (c + 1) i (init ++ [PComp.normal m]) =
        (if renameOk (set_extension (init ++ [PComp.normal m]) (natDigits i)) =
            true then
          Except.ok (set_extension (init ++ [PComp.normal m]) (natDigits i))
        else renameLoop renameOk c (i + 1)
          (set_extension (init ++ [PComp.normal m]) (natDigits i))) := rfl
    have hse : set_extension (init ++ [PComp.normal m]) (natDigits i) =
        init ++ [PComp.normal (rustFileStem m ++ '.' :: natDigits i)] := by
      rw [set_extension_concat]
      rfl
    have h0 : renameOk
        (init ++ [PComp.normal (rustFileStem m ++ '.' :: natDigits i)]) =
          false := by
      have := hall 0 (by omega)
      simpa using this
    rw [hstep, hse, if_neg (by simp [h0])]
    have hstem := rustFileStem_setExt m (natDigits i) hm (natDigits_no_dot i)
    exact ih (i + 1) init (rustFileStem m ++ '.' :: natDigits i) (by simp)
      (fun j hj => by
        rw [show rustFileStem (rustFileStem m ++ '.' :: natDigits i) =
            rustFileStem m from hstem]
        have hx := hall (j + 1) (by omega)
        rw [show i + (j + 1) = i + 1 + j by omega] at hx
        exact hx)

/-- The rename loop returns the first accepted candidate. -/
theorem renameLoop_first_success (renameOk : List PComp → Bool) :
    ∀ (cnt i : Nat) (init : List PComp) (m : List Char), m ≠ [] →
      ∀ j, j < cnt →
        renameOk
          (init ++ [PComp.normal (rustFileStem m ++ '.' :: natDigits (i + j))]) =
            true →
        (∀ k, k < j → renameOk
          (init ++ [PComp.normal (rustFileStem m ++ '.' :: natDigits (i + k))]) =
            false) →
        renameLoop renameOk cnt i (init ++ [PComp.normal m]) =
          Except.ok
            (init ++ [PComp.normal (rustFileStem m ++ '.' :: natDigits (i + j))]) := by
  intro cnt
  induction cnt with
  | zero => intro i init m hm j hj hok hfail; omega
  | succ c ih =>
    intro i init m hm j hj hok hfail
    have hstep : renameLoop renameOk (c + 1) i (init ++ [PComp.normal m]) =
        (if renameOk (set_extension (init ++ [PComp.normal m]) (natDigits i)) =
            true then
          Except.ok (set_extension (init ++ [PComp.normal m]) (natDigits i))
        else renameLoop renameOk c (i + 1)
          (set_extension (init ++ [PComp.normal m]) (natDigits i))) := rfl
    have hse : set_extension (init ++ [PComp.normal m]) (natDigits i) =
        init ++ [PComp.normal (rustFileStem m ++ '.' :: natDigits i)] := by
      rw [set_extension_concat]
      rfl
    rw [hstep, hse]
    have hstem := rustFileStem_setExt m (natDigits i) hm (natDigits_no_dot i)
    cases j with
    | zero =>
      simp only [Nat.add_zero] at hok ⊢
      rw [if_pos hok]
    | succ j' =>
      have h0 : renameOk
          (init ++ [PComp.normal (rustFileStem m ++ '.' :: natDigits i)]) =
            false := by
        have := hfail 0 (by omega)
        simpa using this
      rw [if_neg (by simp [h0])]
      have hres := ih (i + 1) init (rustFileStem m ++ '.' :: natDigits i)
        (by simp) j' (by omega)
        (by rw [show rustFileStem (rustFileStem m ++ '.' :: natDigits i) =
              rustFileStem m from hstem,
            show i + 1 + j' = i + (j' + 1) by omega]
            exact hok)
        (fun k hk => by
          rw [show rustFileStem (rustFileStem m ++ '.' :: natDigits i) =
              rustFileStem m from hstem,
            show i + 1 + k = i + (k + 1) by omega]
          exact hfail (k + 1) (by omega))
      rw [hres,
        show rustFileStem (rustFileStem m ++ '.' :: natDigits i) =
          rustFileStem m from hstem,
        show i + 1 + j' = i + (j' + 1) by omega]

/-- Claim C2 (amended): remove_recursive_atomic tries the candidate names
stem-dot-counter for counters 0 through 65534 (one less than the u16
maximum) in increasing order, surfacing no individual rename failure: when
every one of those 65535 candidates is refused it returns the "Could not
rename for remove" exhaustion error, and on the first accepted candidate it
hands exactly that renamed location to remove_recursive. -/
theorem c2_remove_recursive_atomic (renameOk : List PComp → Bool)
    (doRemove : List PComp → RunOutcome Unit)
    (path tmpDir td init : List PComp) (m : List Char)
    (htd : toDeleteOf path tmpDir = some td)
    (hsplit : td = init ++ [PComp.normal m]) (hm : m ≠ []) :
    ((∀ j, j < 65535 → renameOk
        (init ++ [PComp.normal (rustFileStem m ++ '.' :: natDigits j)]) =
          false) →
      remove_recursive_atomic renameOk doRemove path tmpDir =
        RunOutcome.err (IoErr.otherErr "Could not rename for remove"))
    ∧ (∀ j, j < 65535 → renameOk
        (init ++ [PComp.normal (rustFileStem m ++ '.' :: natDigits j)]) =
          true →
      (∀ k, k < j → renameOk
        (init ++ [PComp.normal (rustFileStem m ++ '.' :: natDigits k)]) =
          false) →
      remove_recursive_atomic renameOk doRemove path tmpDir =
        doRemove
          (init ++ [PComp.normal (rustFileStem m ++ '.' :: natDigits j)])) := by
  subst hsplit
  have hunfold : remove_recursive_atomic renameOk doRemove path tmpDir =
      (match renameLoop renameOk 65535 0 (init ++ [PComp.normal m]) with
       | Except.ok newLoc => doRemove newLoc
       | Except.error e => RunOutcome.err e) := by
    unfold remove_recursive_atomic
    rw [htd]
  constructor
  · intro hall
    rw [hunfold, renameLoop_all_fail renameOk 65535 0 init m hm
      (fun j hj => by simpa using hall j hj)]
  · intro j hj hok hfail
    rw [hunfold, renameLoop_first_success renameOk 65535 0 init m hm j hj
      (by simpa using hok) (fun k hk => by simpa using hfail k hk)]
    simp

/-- Witness for c2_remove_recursive_atomic: an always-failing rename oracle
exhausts, and an oracle accepting the candidate "t.1" hands it on. -/
theorem c2_remove_recursive_atomic_witness :
    remove_recursive_atomic (fun _ => false) (fun _ => RunOutcome.ok ())
        [PComp.normal ['t']] [] =
      RunOutcome.err (IoErr.otherErr "Could not rename for remove")
    ∧ remove_recursive_atomic
        (fun q => decide (q = [PComp.normal ['t', '.', '1']]))
        (fun _ => RunOutcome.ok ()) [PComp.normal ['t']] [] =
      RunOutcome.ok () := by
  constructor
  · exact (c2_remove_recursive_atomic (fun _ => false)
      (fun _ => RunOutcome.ok ()) [PComp.normal ['t']] []
      [PComp.normal ['t']] [] ['t'] rfl rfl (by decide)).1 (fun j hj => rfl)
  · have h := (c2_remove_recursive_atomic
      (fun q => decide (q = [PComp.normal ['t', '.', '1']]))
      (fun _ => RunOutcome.ok ()) [PComp.normal ['t']] []
      [PComp.normal ['t']] [] ['t'] rfl rfl (by decide)).2 1 (by omega)
      (by decide)
      (fun k hk => by
        have hk0 : k = 0 := by omega
        subst hk0
        decide)
    simpa using h

/-- Claim C2, counterexample: with a rename oracle that accepts exactly the
candidate bearing counter 65535 — the u16 maximum, which the claim's
"0 through the counter's maximum value" window includes — the code still
fails with the exhaustion error, because its loop stops after counter 65534;
the loop run one iteration longer (the claimed window) returns that
candidate. -/
theorem c2_counterexample :
    remove_recursive_atomic
        (fun q => decide (q = [PComp.normal ('t' :: '.' :: natDigits 65535)]))
        (fun _ => RunOutcome.ok ()) [PComp.normal ['t']] [] =
      RunOutcome.err (IoErr.otherErr "Could not rename for remove")
    ∧ renameLoop
        (fun q => decide (q = [PComp.normal ('t' :: '.' :: natDigits 65535)]))
        65536 0 [PComp.normal ['t']] =
      Except.ok [PComp.normal ('t' :: '.' :: natDigits 65535)] := by
  constructor
  · apply (c2_remove_recursive_atomic
      (fun q => decide (q = [PComp.normal ('t' :: '.' :: natDigits 65535)]))
      (fun _ => RunOutcome.ok ()) [PComp.normal ['t']] []
      [PComp.normal ['t']] [] ['t'] rfl rfl (by decide)).1
    intro j hj
    apply decide_eq_false
    intro heq
    simp [rustFileStem, beforeLastDot] at heq
    have := natDigits_inj j 65535 heq
    omega
  · have h := renameLoop_first_success
      (fun q => decide (q = [PComp.normal ('t' :: '.' :: natDigits 65535)]))
      65536 0 [] ['t'] (by decide) 65535 (by omega)
      (by simp [rustFileStem, beforeLastDot])
      (fun k hk => by
        apply decide_eq_false
        intro heq
        simp [rustFileStem, beforeLastDot] at heq
        have := natDigits_inj k 65535 heq
        omega)
    simpa [rustFileStem, beforeLastDot] using h

end Openat
